import Mathlib

/-!
Verification of the ascifight board simulation engine: a shallow embedding of
the order-resolution operations of `ascifight/board_actions.py` and of the
base/flag placement of `ascifight/board/setup.py`, together with theorems
settling the specification claims about them.

The board data store (`board_data.py`) is not part of the available sources;
its data model (range-validated coordinates, per-team flags and bases, and the
position-to-occupant reverse indexes realized as Python dict inversions, where
the last inserted entry wins) is modelled from the specification where needed.
Teams are identified by their index; each team has exactly one flag and one
base, so flags and bases are likewise identified by the team index.
-/

namespace AsciFight

/-- Integer grid cell. Validity (both components below the map size) is
tracked separately, mirroring the range-validated pydantic model. -/
structure Coordinates where
  x : Nat
  y : Nat
deriving DecidableEq, Repr

/-- Default cell used for list lookups with an explicit fallback. -/
def c0 : Coordinates := ⟨0, 0⟩

/-- Modelled from the spec: range-validated coordinate construction of the
board data module (absent from the sources). Construction outside
[0, mapSize) in either component is rejected, yielding `none`, matching the
pydantic `ValidationError` that callers catch and ignore. -/
def mkCoord (mapSize : Nat) (x y : Int) : Option Coordinates :=
  if 0 ≤ x ∧ x < (mapSize : Int) ∧ 0 ≤ y ∧ y < (mapSize : Int) then
    some ⟨x.toNat, y.toNat⟩
  else none

/-- Integer interval [lo, hi) as a list, mirroring a Python `range`. -/
def intRange (lo hi : Int) : List Int :=
  (List.range (hi - lo).toNat).map (fun (i : Nat) => lo + (i : Int))

/-- Shared area enumeration `_get_area_positions` of both
`board_actions.py` and `board/setup.py`: all valid coordinates with
x in [center.x - distance, center.x + distance) and
y in [center.y - distance, center.y + distance); out-of-bounds candidates
are silently dropped. -/
def getAreaPositions (mapSize : Nat) (center : Coordinates) (distance : Int) :
    List Coordinates :=
  (intRange ((center.x : Int) - distance) ((center.x : Int) + distance)).flatMap
    fun x =>
      (intRange ((center.y : Int) - distance) ((center.y : Int) + distance)).filterMap
        fun y => mkCoord mapSize x y

/-- Candidate spawn cells enumerated inline by `_respawn`:
`range(base.x - 2, base.x + 3)` crossed with `range(base.y - 2, base.y + 3)`,
an inclusive five-by-five window, with invalid coordinates dropped. -/
def respawnWindow (mapSize : Nat) (base : Coordinates) : List Coordinates :=
  (intRange ((base.x : Int) - 2) ((base.x : Int) + 3)).flatMap
    fun x =>
      (intRange ((base.y : Int) - 2) ((base.y : Int) + 3)).filterMap
        fun y => mkCoord mapSize x y

/-- Immutable per-actor data: owning team index and the grab and attack
success probabilities. -/
structure ActorStatic where
  team : Nat
  grab : Rat
  attack : Rat
deriving DecidableEq, Repr

/-- Default actor record for list lookups with an explicit fallback. -/
def a0 : ActorStatic := ⟨0, 0, 0⟩

/-- Board state: actor positions and carried-flag references indexed by actor,
flag and base positions indexed by team, the wall set, and the
home-flag-required rule toggle (read from the game configuration by the
source; modelled here as a state field). -/
structure GameState where
  mapSize : Nat
  actors : List ActorStatic
  positions : List Coordinates
  held : List (Option Nat)
  flags : List Coordinates
  bases : List Coordinates
  walls : List Coordinates
  homeFlagRequired : Bool
deriving DecidableEq, Repr, Inhabited

/-- Team of the actor with the given index. -/
def teamOf (s : GameState) (a : Nat) : Nat :=
  (s.actors.getD a a0).team

/-- Modelled from the spec: the position-to-occupant reverse index of the
board data module (absent from the sources), realized there as a Python dict
inversion in which the last inserted entry wins. Returns the largest index
whose entry equals the given value, if any. -/
def lastIdxOf {α : Type} [DecidableEq α] (l : List α) (c : α) : Option Nat :=
  match l with
  | [] => none
  | x :: xs =>
    match lastIdxOf xs c with
    | some i => some (i + 1)
    | none => if x = c then some 0 else none

/-- Movement orders understood by the engine. -/
inductive Directions where
  | left
  | right
  | down
  | up
deriving DecidableEq, Repr

/-- Function `calc_target_coordinates`: one step in the given direction,
clamped to the board edges. -/
def calcTarget (s : GameState) (a : Nat) (d : Directions) : Coordinates :=
  let c := s.positions.getD a c0
  match d with
  | .right => ⟨min (c.x + 1) (s.mapSize - 1), c.y⟩
  | .left  => ⟨c.x - 1, c.y⟩
  | .up    => ⟨c.x, min (c.y + 1) (s.mapSize - 1)⟩
  | .down  => ⟨c.x, c.y - 1⟩

/-- Function `_try_put_actor`: relocate the actor to the given cell unless the
cell equals the current position (edge clamp), is occupied by an actor, is a
base, or is a wall; a carried flag moves along. Returns the updated state and
the moved result. -/
def tryPutActor (s : GameState) (a : Nat) (newC : Coordinates) :
    GameState × Bool :=
  let c := s.positions.getD a c0
  if c = newC then (s, false)
  else if (lastIdxOf s.positions newC).isSome then (s, false)
  else if (lastIdxOf s.bases newC).isSome then (s, false)
  else if newC ∈ s.walls then (s, false)
  else
    let s1 := { s with positions := s.positions.set a newC }
    match s.held.getD a none with
    | some f => ({ s1 with flags := s1.flags.set f newC }, true)
    | none => (s1, true)

/-- Scoring test for a single flag, the body of the loop in
`_check_score_conditions`: the flag scores for the team owning the base it
rests on when that team differs from the flag's team and either that team's
own flag is at its own base or the home-flag-required rule is disabled. -/
def flagScores (s : GameState) (f : Nat) : Option Nat :=
  let fc := s.flags.getD f c0
  match lastIdxOf s.bases fc with
  | none => none
  | some b =>
    if f ≠ b then
      if s.flags.getD b c0 = s.bases.getD b c0 ∨ s.homeFlagRequired = false then
        some b
      else none
    else none

/-- Flags evaluated by `_check_score_conditions`: the named flag if one is
given, otherwise all flags in team order. -/
def evalFlagList (s : GameState) (flagToScore : Option Nat) : List Nat :=
  match flagToScore with
  | some f => [f]
  | none => List.range s.flags.length

/-- Function `_check_score_conditions`: fold the scoring test over the
evaluated flags, each scoring flag overwriting the reported team, so the last
scoring flag in evaluation order determines the result. The state is not
modified, reflected here by the purely observational type. -/
def checkScoreConditions (s : GameState) (flagToScore : Option Nat) :
    Option Nat :=
  (evalFlagList s flagToScore).foldl
    (fun acc f =>
      match flagScores s f with
      | some b => some b
      | none => acc)
    none

/-- Function `_return_flag_to_base`: teleport the flag to its own base. -/
def returnFlagToBase (s : GameState) (f : Nat) : GameState :=
  { s with flags := s.flags.set f (s.bases.getD f c0) }

/-- Function `_check_flag_return_conditions`: if a flag lies at the actor's
cell (looked up through the reverse index) and belongs to the actor's team,
teleport it to its base, evaluate the score condition over all flags, and
clear the actor's carried-flag reference if it has one. -/
def checkFlagReturnConditions (s : GameState) (a : Nat) :
    GameState × Option Nat :=
  let c := s.positions.getD a c0
  if c ∈ s.flags then
    match lastIdxOf s.flags c with
    | none => (s, none)
    | some f =>
      if f = teamOf s a then
        let s1 := returnFlagToBase s f
        let score := checkScoreConditions s1 none
        match s1.held.getD a none with
        | some _ => ({ s1 with held := s1.held.set a none }, score)
        | none => (s1, score)
      else (s, none)
  else (s, none)

/-- Function `move`: compute the clamped target, attempt the relocation, and
after a successful move evaluate the flag-return condition, which may report a
scoring team. Returns the new state, the moved result, and the scorer. -/
def move (s : GameState) (a : Nat) (d : Directions) :
    GameState × Bool × Option Nat :=
  let t := calcTarget s a d
  let res := tryPutActor s a t
  if res.2 then
    let r2 := checkFlagReturnConditions res.1 a
    (r2.1, true, r2.2)
  else (res.1, false, none)

/-- Function `_place_actor_in_area`: among the candidate cells not in the
forbidden set, pick one (`k` selects the index of the random choice) and
relocate the actor there, first clearing a carried-flag reference. An empty
candidate remainder raises in the source; modelled as `none`, with the state
unchanged up to that point. -/
def placeActorInArea (s : GameState) (a : Nat)
    (possible : List Coordinates) (forbidden : List Coordinates) (k : Nat) :
    Option GameState :=
  let allowed := possible.filter fun c => decide (c ∉ forbidden)
  match allowed with
  | [] => none
  | _ :: _ =>
    let target := allowed.getD (k % allowed.length) c0
    let s1 :=
      match s.held.getD a none with
      | some _ => { s with held := s.held.set a none }
      | none => s
    some { s1 with positions := s1.positions.set a target }

/-- Function `_respawn`: relocate the actor into the inclusive five-by-five
window around its team base, avoiding every cell occupied by a flag, an
actor, a base, or a wall. -/
def respawn (s : GameState) (a : Nat) (k : Nat) : Option GameState :=
  let bc := s.bases.getD (teamOf s a) c0
  let possible := respawnWindow s.mapSize bc
  let forbidden := s.flags ++ s.positions ++ s.bases ++ s.walls
  placeActorInArea s a possible forbidden k

/-- Function `attack`: no-op when the attack probability is zero or no actor
occupies the target cell; otherwise one probabilistic trial (`r` is the drawn
uniform value) and on success the target actor is respawned. A failed respawn
placement raises in the source, modelled as `none`. -/
def attack (s : GameState) (a : Nat) (d : Directions) (r : Rat) (k : Nat) :
    Option (GameState × Bool) :=
  if (s.actors.getD a a0).attack = 0 then some (s, false)
  else
    let t := calcTarget s a d
    match lastIdxOf s.positions t with
    | none => some (s, false)
    | some target =>
      if r < (s.actors.getD a a0).attack then
        match respawn s target k with
        | none => none
        | some s1 => some (s1, true)
      else some (s, false)

/-- Function `grabput_flag`: put a carried flag (deterministic hand-over to a
grab-capable, flagless occupant, or drop onto a non-wall cell), or grab the
flag resting at the target cell with one probabilistic trial (`r` is the
drawn uniform value). Returns the new state, the acted result, and the
scorer. -/
def grabputFlag (s : GameState) (a : Nat) (d : Directions) (r : Rat) :
    GameState × Bool × Option Nat :=
  let t := calcTarget s a d
  let grabSuccessful := r < (s.actors.getD a a0).grab
  let targetActor := lastIdxOf s.positions t
  match s.held.getD a none with
  | some f =>
    match targetActor with
    | some ta =>
      if (s.actors.getD ta a0).grab = 0 then (s, false, none)
      else
        match s.held.getD ta none with
        | some _ => (s, false, none)
        | none =>
          let s1 := { s with flags := s.flags.set f t }
          let s2 := { s1 with held := (s1.held.set a none).set ta (some f) }
          let r2 := checkFlagReturnConditions s2 ta
          (r2.1, true, r2.2)
    | none =>
      if t ∈ s.walls then (s, false, none)
      else
        let s1 := { s with flags := s.flags.set f t, held := s.held.set a none }
        (s1, true, checkScoreConditions s1 (some f))
  | none =>
    match lastIdxOf s.flags t with
    | none => (s, false, none)
    | some f =>
      if grabSuccessful then
        let s1 := { s with flags := s.flags.set f (s.positions.getD a c0) }
        let s2 := { s1 with held := s1.held.set a (some f) }
        let s3 :=
          match targetActor with
          | some ta => { s2 with held := s2.held.set ta none }
          | none => s2
        let r2 := checkFlagReturnConditions s3 a
        (r2.1, true, r2.2)
      else (s, false, none)

/-! The map generator of `board/setup.py`: the base and flag placement loop
`_place_bases_and_flags`, with the random choices supplied as a list of
indices into the current candidate pool and the while loop run on explicit
fuel (the source loop has no built-in bound; exhausted fuel yields `none`). -/

/-- Interior candidate region of `_place_bases_and_flags`: all coordinates
with both components in [2, mapSize - 2), in row-major enumeration order. -/
def interiorPositions (n : Nat) : List Coordinates :=
  (List.range' 2 (n - 4)).flatMap fun i =>
    (List.range' 2 (n - 4)).map fun j => (⟨i, j⟩ : Coordinates)

/-- Exact-arithmetic value of the source's
`int((map_size ** 2 / len(teams)) ** 0.5 / 1.2) - 1`, the spec's
floor(sqrt(mapSize^2 / teamCount) / 1.2) - 1. -/
def minimumDistance (n teamCount : Nat) : Int :=
  (Nat.sqrt (25 * n ^ 2 / (36 * teamCount)) : Int) - 1

/-- State of the placement loop: remaining candidate pool, index of the team
being placed, the assigned base and flag cells per team, and whether the
empty-pool fallback has been taken. -/
structure PlaceState where
  pool : List Coordinates
  idx : Nat
  bases : List (Option Coordinates)
  flags : List (Option Coordinates)
  didReset : Bool
deriving DecidableEq, Repr

/-- While loop of `_place_bases_and_flags`. On an empty pool the source sets
the team index back to zero and refills the pool with the full interior
region; otherwise it picks a pool cell (the head of `cs` selects the random
choice), assigns it as the team's base and flag, removes the exclusion window
around it from the pool, and advances to the next team. -/
def placeLoop (n teamCount : Nat) (d : Int) :
    Nat → List Nat → PlaceState → Option PlaceState
  | 0, _, _ => none
  | fuel + 1, cs, st =>
    if st.idx < teamCount then
      match st.pool with
      | [] =>
        placeLoop n teamCount d fuel cs
          { st with idx := 0, pool := interiorPositions n, didReset := true }
      | p :: ps =>
        let pool := p :: ps
        let c := pool.getD (cs.headD 0 % pool.length) c0
        let excluded := getAreaPositions n c d
        let newPool := pool.filter fun q => decide (q ∉ excluded)
        placeLoop n teamCount d fuel cs.tail
          { pool := newPool, idx := st.idx + 1,
            bases := st.bases.set st.idx (some c),
            flags := st.flags.set st.idx (some c),
            didReset := st.didReset }
    else some st

/-- Initial state of the placement loop: full interior pool, no team placed. -/
def initPlaceState (n teamCount : Nat) : PlaceState :=
  { pool := interiorPositions n, idx := 0,
    bases := List.replicate teamCount none,
    flags := List.replicate teamCount none,
    didReset := false }

/-- Function `_place_bases_and_flags`: run the placement loop from the full
interior pool with the exclusion distance computed from the map size and the
team count. -/
def placeBasesAndFlags (n teamCount fuel : Nat) (cs : List Nat) :
    Option PlaceState :=
  placeLoop n teamCount (minimumDistance n teamCount) fuel cs
    (initPlaceState n teamCount)

/-! Predicates used in the claim statements. -/

/-- Validity of a cell on a board of the given size. -/
def validCoord (n : Nat) (c : Coordinates) : Prop := c.x < n ∧ c.y < n

instance (n : Nat) (c : Coordinates) : Decidable (validCoord n c) := by
  unfold validCoord
  infer_instance

/-- Board invariant: no two distinct actors share a cell. -/
def actorsDistinct (s : GameState) : Prop :=
  ∀ i, i < s.positions.length → ∀ j, j < s.positions.length → i ≠ j →
    s.positions.getD i c0 ≠ s.positions.getD j c0

instance (s : GameState) : Decidable (actorsDistinct s) := by
  unfold actorsDistinct
  infer_instance

/-- Scoring condition as worded by the claim: some evaluated flag rests on
team `T`'s base, its owner differs from `T`, and the home-flag-required rule
is satisfied for `T` or disabled. -/
def scoreClaimCond (s : GameState) (flagToScore : Option Nat) (T : Nat) :
    Prop :=
  ∃ f ∈ evalFlagList s flagToScore,
    T < s.bases.length ∧ s.flags.getD f c0 = s.bases.getD T c0 ∧ f ≠ T ∧
      (s.flags.getD T c0 = s.bases.getD T c0 ∨ s.homeFlagRequired = false)

instance (s : GameState) (fo : Option Nat) (T : Nat) :
    Decidable (scoreClaimCond s fo T) := by
  unfold scoreClaimCond
  infer_instance

/-- Pairwise spacing of the assigned bases: every two bases assigned to
distinct teams lie at squared Euclidean distance at least `d ^ 2`. -/
def placedFar (d : Int) (bases : List (Option Coordinates)) : Prop :=
  ∀ i j ci cj, i ≠ j → bases.getD i none = some ci →
    bases.getD j none = some cj →
    d ^ 2 ≤ ((ci.x : Int) - cj.x) ^ 2 + ((ci.y : Int) - cj.y) ^ 2

/-- Inductive invariant of a reset-free run of the placement loop. -/
structure PlaceInv (n T : Nat) (d : Int) (st : PlaceState) : Prop where
  len_bases : st.bases.length = T
  flags_eq : st.flags = st.bases
  placed_below : ∀ t, t < st.idx → (st.bases.getD t none).isSome = true
  placed_valid : ∀ t c, st.bases.getD t none = some c → validCoord n c
  far : placedFar d st.bases
  pool_valid : ∀ q, q ∈ st.pool → validCoord n q
  pool_excl : ∀ t c, st.bases.getD t none = some c →
    ∀ q, q ∈ st.pool → q ∉ getAreaPositions n c d

/-- Invariant of the placement loop on a size-5 map with two teams: the
interior region is the single cell (2,2), the pool is always empty or that
one cell, and the second team is never reached. -/
def smallMapInv (st : PlaceState) : Prop :=
  st.idx ≤ 1 ∧ (st.idx = 1 → st.pool = []) ∧
    (st.pool = [] ∨ st.pool = [⟨2, 2⟩])

/-! Concrete board states used as counterexamples and witnesses. -/

/-- Single actor of team 0 carrying its own team's flag. -/
def sC1 : GameState :=
  { mapSize := 3, actors := [⟨0, 1, 1⟩], positions := [⟨0, 0⟩],
    held := [some 0], flags := [⟨0, 0⟩], bases := [⟨2, 2⟩],
    walls := [], homeFlagRequired := true }

/-- Three teams with two enemy flags resting on bases at once: flag 0 on
base 1 and flag 1 on base 2, with the home-flag rule disabled. -/
def sC2 : GameState :=
  { mapSize := 5, actors := [], positions := [], held := [],
    flags := [⟨1, 1⟩, ⟨2, 2⟩, ⟨0, 2⟩], bases := [⟨0, 0⟩, ⟨1, 1⟩, ⟨2, 2⟩],
    walls := [], homeFlagRequired := false }

/-- Actor of team 0 standing on its own flag while the enemy flag rests on
the same cell and is the one the reverse index yields. -/
def sC3 : GameState :=
  { mapSize := 4, actors := [⟨0, 1, 1⟩], positions := [⟨0, 0⟩],
    held := [none], flags := [⟨0, 0⟩, ⟨0, 0⟩], bases := [⟨2, 2⟩, ⟨3, 3⟩],
    walls := [], homeFlagRequired := true }

/-- Respawn scenario on a 3 by 3 board with the base in the corner: every
free cell of the candidate window lies on the row or column at offset +2
from the base, outside the half-open window of the shared area
enumeration. -/
def sC4 : GameState :=
  { mapSize := 3, actors := [⟨0, 1, 1⟩], positions := [⟨0, 2⟩],
    held := [none], flags := [⟨1, 2⟩], bases := [⟨0, 0⟩],
    walls := [⟨0, 1⟩, ⟨1, 0⟩, ⟨1, 1⟩], homeFlagRequired := true }

/-- Two actors on adjacent cells, distinct positions, for the invariant
witness. -/
def sW5 : GameState :=
  { mapSize := 4, actors := [⟨0, 1, 1⟩, ⟨1, 1, 1⟩],
    positions := [⟨0, 0⟩, ⟨2, 0⟩], held := [none, none],
    flags := [⟨3, 3⟩, ⟨3, 0⟩], bases := [⟨3, 3⟩, ⟨0, 3⟩],
    walls := [], homeFlagRequired := true }

/-- Actor with grab probability 1 carrying its team's flag, facing a wall. -/
def sC6a : GameState :=
  { mapSize := 3, actors := [⟨0, 1, 1⟩], positions := [⟨0, 0⟩],
    held := [some 0], flags := [⟨0, 0⟩], bases := [⟨2, 2⟩],
    walls := [⟨1, 0⟩], homeFlagRequired := true }

/-- Actor with grab probability 0 carrying its team's flag, facing an empty
cell. -/
def sC6b : GameState :=
  { mapSize := 3, actors := [⟨0, 0, 1⟩], positions := [⟨0, 0⟩],
    held := [some 0], flags := [⟨0, 0⟩], bases := [⟨2, 2⟩],
    walls := [], homeFlagRequired := true }

/-- Grabber of team 1 below a cell holding both its own resting flag 1 (the
one the reverse index yields) and the flag 0 carried by the team-0 actor
standing there. -/
def sC7 : GameState :=
  { mapSize := 4, actors := [⟨1, 1, 1⟩, ⟨0, 1, 1⟩],
    positions := [⟨0, 0⟩, ⟨0, 1⟩], held := [none, some 0],
    flags := [⟨0, 1⟩, ⟨0, 1⟩], bases := [⟨3, 3⟩, ⟨2, 2⟩],
    walls := [], homeFlagRequired := true }

/-- Actor of team 0 carrying the enemy flag 1, with the enemy's own flag 0
resting on the empty target cell to its right. -/
def sC10 : GameState :=
  { mapSize := 4, actors := [⟨0, 1, 1⟩], positions := [⟨0, 0⟩],
    held := [some 1], flags := [⟨1, 0⟩, ⟨0, 0⟩], bases := [⟨3, 3⟩, ⟨3, 0⟩],
    walls := [], homeFlagRequired := true }

/-- Scoring witness state: flag 1 rests on base 0 while flag 0 is at its own
base. -/
def sW2 : GameState :=
  { mapSize := 5, actors := [], positions := [], held := [],
    flags := [⟨0, 0⟩, ⟨0, 0⟩], bases := [⟨0, 0⟩, ⟨3, 3⟩],
    walls := [], homeFlagRequired := true }

/-- Result state of the respawn in `sC4`: the actor lands on (2,0). -/
def sC4' : GameState :=
  { mapSize := 3, actors := [⟨0, 1, 1⟩], positions := [⟨2, 0⟩],
    held := [none], flags := [⟨1, 2⟩], bases := [⟨0, 0⟩],
    walls := [⟨0, 1⟩, ⟨1, 0⟩, ⟨1, 1⟩], homeFlagRequired := true }

/-- Flag-return witness state: the actor of team 0 stands on its own resting
flag. -/
def sW3 : GameState :=
  { mapSize := 4, actors := [⟨0, 1, 1⟩], positions := [⟨1, 1⟩],
    held := [none], flags := [⟨1, 1⟩, ⟨3, 0⟩], bases := [⟨2, 2⟩, ⟨3, 3⟩],
    walls := [], homeFlagRequired := true }

/-- Result state of the two-team placement run on a size-10 map with
choices [0, 3]. -/
def stW8 : PlaceState :=
  { pool := [⟨6, 2⟩, ⟨7, 2⟩, ⟨7, 3⟩, ⟨7, 4⟩, ⟨7, 5⟩, ⟨7, 6⟩, ⟨7, 7⟩],
    idx := 2,
    bases := [some ⟨2, 2⟩, some ⟨3, 7⟩],
    flags := [some ⟨2, 2⟩, some ⟨3, 7⟩],
    didReset := false }

/-- Grab witness state: actor with grab probability 1 next to a resting
enemy flag. -/
def sW6 : GameState :=
  { mapSize := 4, actors := [⟨0, 1, 1⟩], positions := [⟨0, 0⟩],
    held := [none], flags := [⟨3, 3⟩, ⟨1, 0⟩], bases := [⟨3, 3⟩, ⟨0, 3⟩],
    walls := [], homeFlagRequired := true }

/-! Helper lemmas about list lookups, the reverse index, and the area
enumeration. -/

theorem getD_set_self {α : Type} (l : List α) (i : Nat) (x d : α)
    (h : i < l.length) : (l.set i x).getD i d = x := by
  induction l generalizing i with
  | nil => simp at h
  | cons a t ih =>
    cases i with
    | zero => rfl
    | succ n =>
      simp only [List.set, List.getD_cons_succ]
      exact ih n (by simpa using h)

theorem getD_set_ne {α : Type} (l : List α) (i j : Nat) (x d : α)
    (h : i ≠ j) : (l.set i x).getD j d = l.getD j d := by
  induction l generalizing i j with
  | nil => simp
  | cons a t ih =>
    cases i with
    | zero =>
      cases j with
      | zero => exact absurd rfl h
      | succ m => simp [List.set]
    | succ n =>
      cases j with
      | zero => simp [List.set]
      | succ m =>
        simp only [List.set, List.getD_cons_succ]
        exact ih n m (by omega)

theorem set_getD_self {α : Type} (l : List α) (i : Nat) (d : α) :
    l.set i (l.getD i d) = l := by
  induction l generalizing i with
  | nil => simp
  | cons a t ih =>
    cases i with
    | zero => rfl
    | succ n =>
      simp only [List.set, List.getD_cons_succ]
      rw [ih n]

theorem getD_mem {α : Type} (l : List α) (i : Nat) (d : α)
    (h : i < l.length) : l.getD i d ∈ l := by
  induction l generalizing i with
  | nil => simp at h
  | cons a t ih =>
    cases i with
    | zero => simp [List.getD_cons_zero]
    | succ n =>
      simp only [List.getD_cons_succ]
      exact List.mem_cons_of_mem a (ih n (by simpa using h))

theorem lastIdxOf_eq_none_iff {α : Type} [DecidableEq α] (l : List α) (c : α) :
    lastIdxOf l c = none ↔ c ∉ l := by
  induction l with
  | nil => simp [lastIdxOf]
  | cons a t ih =>
    simp only [lastIdxOf]
    cases h : lastIdxOf t c with
    | some i =>
      have hct : c ∈ t := by
        by_contra hc
        rw [ih.mpr hc] at h
        exact Option.noConfusion h
      simp [List.mem_cons, hct]
    | none =>
      have hct : c ∉ t := ih.mp h
      by_cases hac : a = c <;> simp [hac, List.mem_cons, hct, Ne.symm]

theorem lastIdxOf_lt_length {α : Type} [DecidableEq α] {l : List α} {c : α}
    {i : Nat} (h : lastIdxOf l c = some i) : i < l.length := by
  induction l generalizing i with
  | nil => exact Option.noConfusion h
  | cons a t ih =>
    simp only [lastIdxOf] at h
    cases h' : lastIdxOf t c with
    | some j =>
      rw [h'] at h
      cases h
      simpa using Nat.succ_lt_succ (ih h')
    | none =>
      rw [h'] at h
      by_cases hac : a = c
      · simp [hac] at h
        simp [← h]
      · simp [hac] at h

theorem lastIdxOf_getD {α : Type} [DecidableEq α] {l : List α} {c : α}
    {i : Nat} (d : α) (h : lastIdxOf l c = some i) : l.getD i d = c := by
  induction l generalizing i with
  | nil => exact Option.noConfusion h
  | cons a t ih =>
    simp only [lastIdxOf] at h
    cases h' : lastIdxOf t c with
    | some j =>
      rw [h'] at h
      cases h
      simpa [List.getD_cons_succ] using ih h'
    | none =>
      rw [h'] at h
      by_cases hac : a = c
      · simp [hac] at h
        simp [← h, List.getD_cons_zero, hac]
      · simp [hac] at h

theorem lastIdxOf_of_nodup {α : Type} [DecidableEq α] {l : List α} {c : α}
    {i : Nat} (d : α) (hn : l.Nodup) (hi : i < l.length)
    (hc : l.getD i d = c) : lastIdxOf l c = some i := by
  induction l generalizing i with
  | nil => simp at hi
  | cons a t ih =>
    have hn' := List.nodup_cons.mp hn
    cases i with
    | zero =>
      simp only [List.getD_cons_zero] at hc
      have hct : c ∉ t := hc ▸ hn'.1
      simp only [lastIdxOf, (lastIdxOf_eq_none_iff t c).mpr hct]
      simp [hc]
    | succ n =>
      simp only [List.getD_cons_succ] at hc
      have := ih hn'.2 (by simpa using hi) hc
      simp [lastIdxOf, this]

theorem mem_intRange {lo hi a : Int} :
    a ∈ intRange lo hi ↔ lo ≤ a ∧ a < hi := by
  unfold intRange
  rw [List.mem_map]
  constructor
  · rintro ⟨i, hi', rfl⟩
    rw [List.mem_range] at hi'
    omega
  · rintro ⟨h1, h2⟩
    refine ⟨(a - lo).toNat, ?_, ?_⟩
    · rw [List.mem_range]
      omega
    · omega

theorem mkCoord_eq_some {n : Nat} {x y : Int} {c : Coordinates} :
    mkCoord n x y = some c ↔
      0 ≤ x ∧ x < (n : Int) ∧ 0 ≤ y ∧ y < (n : Int) ∧
        (c.x : Int) = x ∧ (c.y : Int) = y := by
  unfold mkCoord
  split
  · rename_i h
    obtain ⟨h1, h2, h3, h4⟩ := h
    constructor
    · rintro h5
      cases h5
      refine ⟨h1, h2, h3, h4, ?_, ?_⟩ <;> simp <;> omega
    · rintro ⟨-, -, -, -, hx, hy⟩
      cases c
      simp at hx hy ⊢
      omega
  · rename_i h
    constructor
    · rintro h5
      exact Option.noConfusion h5
    · rintro ⟨h1, h2, h3, h4, -, -⟩
      exact absurd ⟨h1, h2, h3, h4⟩ h

theorem mem_getAreaPositions {n : Nat} {center q : Coordinates} {d : Int} :
    q ∈ getAreaPositions n center d ↔
      validCoord n q ∧
        (center.x : Int) - d ≤ q.x ∧ (q.x : Int) < center.x + d ∧
        (center.y : Int) - d ≤ q.y ∧ (q.y : Int) < center.y + d := by
  simp only [getAreaPositions, List.mem_flatMap, List.mem_filterMap]
  constructor
  · rintro ⟨x, hx, y, hy, hq⟩
    rw [mem_intRange] at hx
    rw [mem_intRange] at hy
    rw [mkCoord_eq_some] at hq
    obtain ⟨-, hxn, -, hyn, hcx, hcy⟩ := hq
    refine ⟨⟨?_, ?_⟩, ?_, ?_, ?_, ?_⟩ <;> omega
  · rintro ⟨⟨hvx, hvy⟩, h1, h2, h3, h4⟩
    refine ⟨q.x, ?_, q.y, ?_, ?_⟩
    · rw [mem_intRange]; omega
    · rw [mem_intRange]; omega
    · rw [mkCoord_eq_some]
      refine ⟨by omega, by omega, by omega, by omega, rfl, rfl⟩

theorem mem_respawnWindow {n : Nat} {base q : Coordinates} :
    q ∈ respawnWindow n base ↔
      validCoord n q ∧
        (base.x : Int) - 2 ≤ q.x ∧ (q.x : Int) < base.x + 3 ∧
        (base.y : Int) - 2 ≤ q.y ∧ (q.y : Int) < base.y + 3 := by
  simp only [respawnWindow, List.mem_flatMap, List.mem_filterMap]
  constructor
  · rintro ⟨x, hx, y, hy, hq⟩
    rw [mem_intRange] at hx
    rw [mem_intRange] at hy
    rw [mkCoord_eq_some] at hq
    obtain ⟨-, hxn, -, hyn, hcx, hcy⟩ := hq
    refine ⟨⟨?_, ?_⟩, ?_, ?_, ?_, ?_⟩ <;> omega
  · rintro ⟨⟨hvx, hvy⟩, h1, h2, h3, h4⟩
    refine ⟨q.x, ?_, q.y, ?_, ?_⟩
    · rw [mem_intRange]; omega
    · rw [mem_intRange]; omega
    · rw [mkCoord_eq_some]
      refine ⟨by omega, by omega, by omega, by omega, rfl, rfl⟩

theorem lastIdxOf_mem {α : Type} [DecidableEq α] {l : List α} {c : α}
    {i : Nat} (h : lastIdxOf l c = some i) : c ∈ l := by
  have h1 := lastIdxOf_lt_length h
  have h2 := lastIdxOf_getD c h
  exact h2 ▸ getD_mem l i c h1

theorem getD_set_default {α : Type} (l : List α) (a : Nat) (d : α) :
    (l.set a d).getD a d = d := by
  by_cases h : a < l.length
  · exact getD_set_self l a d d h
  · rw [List.getD_eq_default]
    rw [List.length_set]
    omega

theorem set_eq_self_of_getD {α : Type} {l : List α} {a : Nat} {d : α}
    (h : l.getD a d = d) : l.set a d = l := by
  conv_lhs => rw [← h]
  exact set_getD_self l a d

theorem mem_interiorPositions {n : Nat} {q : Coordinates} :
    q ∈ interiorPositions n ↔
      2 ≤ q.x ∧ q.x < n - 2 ∧ 2 ≤ q.y ∧ q.y < n - 2 := by
  unfold interiorPositions
  rw [List.mem_flatMap]
  constructor
  · rintro ⟨x, hx, hq⟩
    rw [List.mem_range'_1] at hx
    rw [List.mem_map] at hq
    obtain ⟨y, hy, rfl⟩ := hq
    rw [List.mem_range'_1] at hy
    refine ⟨?_, ?_, ?_, ?_⟩ <;> simp <;> omega
  · rintro ⟨h1, h2, h3, h4⟩
    refine ⟨q.x, ?_, ?_⟩
    · rw [List.mem_range'_1]
      omega
    · rw [List.mem_map]
      refine ⟨q.y, ?_, rfl⟩
      rw [List.mem_range'_1]
      omega

theorem sq_dist_ge_of_not_mem_area {n : Nat} {c q : Coordinates} {d : Int}
    (hd : 0 ≤ d) (hv : validCoord n q) (h : q ∉ getAreaPositions n c d) :
    d ^ 2 ≤ ((q.x : Int) - c.x) ^ 2 + ((q.y : Int) - c.y) ^ 2 := by
  have habs : d ≤ |(q.x : Int) - c.x| ∨ d ≤ |(q.y : Int) - c.y| := by
    by_contra hcon
    push_neg at hcon
    obtain ⟨hx, hy⟩ := hcon
    rw [abs_lt] at hx hy
    exact h (mem_getAreaPositions.mpr
      ⟨hv, by omega, by omega, by omega, by omega⟩)
  rcases habs with hx | hy
  · have h2 := pow_le_pow_left₀ hd hx 2
    rw [sq_abs] at h2
    nlinarith [sq_nonneg ((q.y : Int) - c.y)]
  · have h2 := pow_le_pow_left₀ hd hy 2
    rw [sq_abs] at h2
    nlinarith [sq_nonneg ((q.x : Int) - c.x)]

theorem scoreFold_some {s : GameState} (l : List Nat) (acc : Option Nat)
    (T : Nat)
    (h : l.foldl (fun acc f =>
        match flagScores s f with
        | some b => some b
        | none => acc) acc = some T) :
    (∃ f ∈ l, flagScores s f = some T) ∨ acc = some T := by
  induction l generalizing acc with
  | nil => exact Or.inr h
  | cons x xs ih =>
    rw [List.foldl_cons] at h
    rcases ih _ h with ⟨f, hf, hfs⟩ | hacc
    · exact Or.inl ⟨f, List.mem_cons_of_mem _ hf, hfs⟩
    · cases hx : flagScores s x with
      | some b =>
        rw [hx] at hacc
        cases hacc
        exact Or.inl ⟨x, List.mem_cons_self x xs, hx⟩
      | none =>
        rw [hx] at hacc
        exact Or.inr hacc

theorem scoreFold_none_iff {s : GameState} (l : List Nat) (acc : Option Nat) :
    l.foldl (fun acc f =>
        match flagScores s f with
        | some b => some b
        | none => acc) acc = none ↔
      acc = none ∧ ∀ f ∈ l, flagScores s f = none := by
  induction l generalizing acc with
  | nil => simp
  | cons x xs ih =>
    rw [List.foldl_cons, ih]
    cases hx : flagScores s x with
    | some b => simp [hx]
    | none => simp [hx]

theorem flagScores_eq_some_iff {s : GameState} {f T : Nat}
    (hb : s.bases.Nodup) :
    flagScores s f = some T ↔
      (T < s.bases.length ∧ s.flags.getD f c0 = s.bases.getD T c0 ∧ f ≠ T ∧
        (s.flags.getD T c0 = s.bases.getD T c0 ∨
          s.homeFlagRequired = false)) := by
  simp only [flagScores]
  constructor
  · intro h
    split at h
    · exact Option.noConfusion h
    · rename_i b hl
      split_ifs at h with hfb hcond
      · cases h
        exact ⟨lastIdxOf_lt_length hl, (lastIdxOf_getD c0 hl).symm, hfb,
          hcond⟩
  · rintro ⟨hT, heq, hne, hcond⟩
    have hl : lastIdxOf s.bases (s.flags.getD f c0) = some T :=
      lastIdxOf_of_nodup c0 hb hT heq.symm
    rw [hl]
    show (if f ≠ T then
        if s.flags.getD T c0 = s.bases.getD T c0 ∨ s.homeFlagRequired = false
        then some T else none
      else none) = some T
    rw [if_pos hne, if_pos hcond]

theorem tryPutActor_not_moved {s : GameState} {a : Nat} {newC : Coordinates}
    (h : s.positions.getD a c0 = newC ∨
      (lastIdxOf s.positions newC).isSome = true ∨
      (lastIdxOf s.bases newC).isSome = true ∨ newC ∈ s.walls) :
    tryPutActor s a newC = (s, false) := by
  simp only [tryPutActor]
  split_ifs with h1 h2 h3 h4
  · rfl
  · rfl
  · rfl
  · rfl
  · exfalso
    rcases h with h | h | h | h
    · exact h1 h
    · exact h2 h
    · exact h3 h
    · exact h4 h

theorem tryPutActor_moved_held {s : GameState} {a : Nat} {newC : Coordinates}
    {f : Nat}
    (h1 : ¬ s.positions.getD a c0 = newC)
    (h2 : lastIdxOf s.positions newC = none)
    (h3 : lastIdxOf s.bases newC = none)
    (h4 : newC ∉ s.walls)
    (hh : s.held.getD a none = some f) :
    tryPutActor s a newC =
      ({ s with positions := s.positions.set a newC,
                flags := s.flags.set f newC }, true) := by
  simp only [tryPutActor, h2, h3, Option.isSome_none, Bool.false_eq_true,
    if_false, hh]
  rw [if_neg h1, if_neg h4]

theorem tryPutActor_moved_free {s : GameState} {a : Nat} {newC : Coordinates}
    (h1 : ¬ s.positions.getD a c0 = newC)
    (h2 : lastIdxOf s.positions newC = none)
    (h3 : lastIdxOf s.bases newC = none)
    (h4 : newC ∉ s.walls)
    (hh : s.held.getD a none = none) :
    tryPutActor s a newC =
      ({ s with positions := s.positions.set a newC }, true) := by
  simp only [tryPutActor, h2, h3, Option.isSome_none, Bool.false_eq_true,
    if_false, hh]
  rw [if_neg h1, if_neg h4]

theorem cfrc_eq (s : GameState) (a : Nat) :
    (checkFlagReturnConditions s a = (s, none) ∧
       lastIdxOf s.flags (s.positions.getD a c0) ≠ some (teamOf s a)) ∨
    (lastIdxOf s.flags (s.positions.getD a c0) = some (teamOf s a) ∧
       checkFlagReturnConditions s a =
         ({ s with
             flags := s.flags.set (teamOf s a) (s.bases.getD (teamOf s a) c0),
             held := s.held.set a none },
          checkScoreConditions (returnFlagToBase s (teamOf s a)) none)) := by
  simp only [checkFlagReturnConditions]
  split
  · split
    · rename_i hl
      refine Or.inl ⟨rfl, ?_⟩
      rw [hl]
      intro hcontra
      exact Option.noConfusion hcontra
    · rename_i g hl
      split
      · rename_i hg
        subst hg
        refine Or.inr ⟨hl, ?_⟩
        split
        · rename_i x hh
          rfl
        · rename_i hh
          have hh' : s.held.getD a none = none := hh
          have hset : s.held.set a none = s.held := set_eq_self_of_getD hh'
          rw [hset]
          rfl
      · rename_i hg
        refine Or.inl ⟨rfl, ?_⟩
        rw [hl]
        intro hcontra
        cases hcontra
        exact hg rfl
  · rename_i hc
    exact Or.inl ⟨rfl, fun hcontra => hc (lastIdxOf_mem hcontra)⟩

theorem cfrc_positions (s : GameState) (a : Nat) :
    (checkFlagReturnConditions s a).1.positions = s.positions := by
  rcases cfrc_eq s a with ⟨h, -⟩ | ⟨-, h⟩ <;> rw [h]

theorem cfrc_frame (s : GameState) (a : Nat) :
    (checkFlagReturnConditions s a).1.mapSize = s.mapSize ∧
    (checkFlagReturnConditions s a).1.actors = s.actors ∧
    (checkFlagReturnConditions s a).1.bases = s.bases ∧
    (checkFlagReturnConditions s a).1.walls = s.walls := by
  rcases cfrc_eq s a with ⟨h, -⟩ | ⟨-, h⟩ <;> rw [h] <;> exact ⟨rfl, rfl, rfl, rfl⟩

/-! Claim theorems. -/

/-- C10: for every actor holding a flag `f` and every direction whose clamped
target cell is not occupied by any actor and is not a wall, the put succeeds
and sets `f`'s coordinates to the target cell while leaving every other flag
in place — so a flag can be put onto a cell where a different flag already
rests, and two flags come to rest on the same cell. -/
theorem grabput_put_onto_flag (s : GameState) (a : Nat) (d : Directions)
    (r : Rat) (f : Nat)
    (hheld : s.held.getD a none = some f)
    (hf : f < s.flags.length)
    (hNoActor : lastIdxOf s.positions (calcTarget s a d) = none)
    (hNoWall : calcTarget s a d ∉ s.walls) :
    (grabputFlag s a d r).2.1 = true ∧
    (grabputFlag s a d r).1.flags.getD f c0 = calcTarget s a d ∧
    ∀ g, g ≠ f →
      (grabputFlag s a d r).1.flags.getD g c0 = s.flags.getD g c0 := by
  simp only [grabputFlag, hheld, hNoActor]
  rw [if_neg hNoWall]
  refine ⟨rfl, ?_, ?_⟩
  · exact getD_set_self _ _ _ _ hf
  · intro g hg
    exact getD_set_ne s.flags f g (calcTarget s a d) c0 fun h => hg h.symm

/-- Witness for the C10 theorem: in `sC10` the actor carries flag 1 and puts
it right onto the free cell (1,0) where the enemy flag 0 already rests; the
put succeeds and both flags end on (1,0). -/
theorem grabput_put_onto_flag_witness :
    (grabputFlag sC10 0 .right 0).2.1 = true ∧
    (grabputFlag sC10 0 .right 0).1.flags.getD 1 c0 = ⟨1, 0⟩ ∧
    (grabputFlag sC10 0 .right 0).1.flags.getD 0 c0 = ⟨1, 0⟩ := by
  obtain ⟨h1, h2, h3⟩ :=
    grabput_put_onto_flag sC10 0 .right 0 1 (by decide) (by decide)
      (by decide) (by decide)
  refine ⟨h1, ?_, ?_⟩
  · rw [h2]
    decide
  · rw [h3 0 (by decide)]
    decide

/-- C1 counterexample: in `sC1` the actor carries its own team's flag and
moves right onto a free cell; the move succeeds, but the flag-return rule
then teleports the carried flag to its base, so the flag's final coordinates
are not the target cell, contradicting the claim as stated. -/
theorem move_carried_flag_not_at_target :
    (move sC1 0 .right).2.1 = true ∧
    sC1.held.getD 0 none = some 0 ∧
    (move sC1 0 .right).1.flags.getD 0 c0 ≠ calcTarget sC1 0 .right := by
  decide

/-- C1 (amended): a move succeeds exactly when the clamped target differs
from the current cell, holds no actor, is no base, and is no wall; a failed
move leaves the whole state unchanged; a successful move puts the actor on
the target cell and a carried flag is put there too, except that a carried
own-team flag may be teleported onward to its base by the flag-return
rule. -/
theorem move_spec (s : GameState) (a : Nat) (d : Directions)
    (ha : a < s.positions.length) :
    ((move s a d).2.1 = true ↔
      (calcTarget s a d ≠ s.positions.getD a c0 ∧
        lastIdxOf s.positions (calcTarget s a d) = none ∧
        lastIdxOf s.bases (calcTarget s a d) = none ∧
        calcTarget s a d ∉ s.walls)) ∧
    ((move s a d).2.1 = false → (move s a d).1 = s) ∧
    ((move s a d).2.1 = true →
      (move s a d).1.positions.getD a c0 = calcTarget s a d ∧
      ∀ f, s.held.getD a none = some f → f < s.flags.length →
        ((move s a d).1.flags.getD f c0 = calcTarget s a d ∨
          (f = teamOf s a ∧
            (move s a d).1.flags.getD f c0 = s.bases.getD f c0))) := by
  by_cases hc : calcTarget s a d ≠ s.positions.getD a c0 ∧
      lastIdxOf s.positions (calcTarget s a d) = none ∧
      lastIdxOf s.bases (calcTarget s a d) = none ∧
      calcTarget s a d ∉ s.walls
  · obtain ⟨hA, hB, hC, hD⟩ := hc
    have hA' : ¬ s.positions.getD a c0 = calcTarget s a d := fun h => hA h.symm
    cases hh : s.held.getD a none with
    | none =>
      have hT := tryPutActor_moved_free hA' hB hC hD hh
      have hm : move s a d =
          ((checkFlagReturnConditions
              { s with positions := s.positions.set a (calcTarget s a d) } a).1,
            true,
            (checkFlagReturnConditions
              { s with positions := s.positions.set a (calcTarget s a d) } a).2) := by
        simp only [move, hT, if_true]
      have hm1 : (move s a d).1 =
          (checkFlagReturnConditions
            { s with positions := s.positions.set a (calcTarget s a d) } a).1 := by
        rw [hm]
      have hm2 : (move s a d).2.1 = true := by
        rw [hm]
      refine ⟨iff_of_true hm2 ⟨hA, hB, hC, hD⟩, ?_, ?_⟩
      · intro h
        rw [hm2] at h
        exact absurd h (by simp)
      · intro _
        constructor
        · rw [hm1, cfrc_positions]
          exact getD_set_self _ _ _ _ ha
        · intro f hf
          exact Option.noConfusion hf
    | some f0 =>
      have hT := tryPutActor_moved_held hA' hB hC hD hh
      have hm : move s a d =
          ((checkFlagReturnConditions
              { s with positions := s.positions.set a (calcTarget s a d),
                       flags := s.flags.set f0 (calcTarget s a d) } a).1,
            true,
            (checkFlagReturnConditions
              { s with positions := s.positions.set a (calcTarget s a d),
                       flags := s.flags.set f0 (calcTarget s a d) } a).2) := by
        simp only [move, hT, if_true]
      have hm1 : (move s a d).1 =
          (checkFlagReturnConditions
            { s with positions := s.positions.set a (calcTarget s a d),
                     flags := s.flags.set f0 (calcTarget s a d) } a).1 := by
        rw [hm]
      have hm2 : (move s a d).2.1 = true := by
        rw [hm]
      refine ⟨iff_of_true hm2 ⟨hA, hB, hC, hD⟩, ?_, ?_⟩
      · intro h
        rw [hm2] at h
        exact absurd h (by simp)
      · intro _
        set s1 : GameState :=
          { s with positions := s.positions.set a (calcTarget s a d),
                   flags := s.flags.set f0 (calcTarget s a d) } with hs1
        constructor
        · rw [hm1, cfrc_positions]
          exact getD_set_self _ _ _ _ ha
        · intro f hf hflen
          have hff : f = f0 := by
            cases hf
            rfl
          subst hff
          have hteam : teamOf s1 a = teamOf s a := rfl
          rcases cfrc_eq s1 a with ⟨heq, -⟩ | ⟨-, heq⟩
          · left
            rw [hm1, heq]
            exact getD_set_self _ _ _ _ hflen
          · by_cases hft : f = teamOf s a
            · right
              refine ⟨hft, ?_⟩
              rw [hm1, heq, hteam]
              have hfl : ({ s1 with
                  flags := s1.flags.set (teamOf s a)
                    (s1.bases.getD (teamOf s a) c0),
                  held := s1.held.set a none } : GameState).flags =
                  s1.flags.set (teamOf s a) (s1.bases.getD (teamOf s a) c0) :=
                rfl
              rw [hfl, ← hft]
              have hlen1 : f < s1.flags.length := by
                simpa [hs1] using hflen
              rw [getD_set_self _ _ _ _ hlen1]
            · left
              rw [hm1, heq, hteam]
              have hfl : ({ s1 with
                  flags := s1.flags.set (teamOf s a)
                    (s1.bases.getD (teamOf s a) c0),
                  held := s1.held.set a none } : GameState).flags =
                  s1.flags.set (teamOf s a) (s1.bases.getD (teamOf s a) c0) :=
                rfl
              rw [hfl, getD_set_ne _ _ _ _ _ fun h => hft h.symm]
              exact getD_set_self _ _ _ _ hflen
  · have hT : tryPutActor s a (calcTarget s a d) = (s, false) := by
      apply tryPutActor_not_moved
      by_cases hA : s.positions.getD a c0 = calcTarget s a d
      · exact Or.inl hA
      · by_cases hB : (lastIdxOf s.positions (calcTarget s a d)).isSome = true
        · exact Or.inr (Or.inl hB)
        · by_cases hC : (lastIdxOf s.bases (calcTarget s a d)).isSome = true
          · exact Or.inr (Or.inr (Or.inl hC))
          · by_cases hD : calcTarget s a d ∈ s.walls
            · exact Or.inr (Or.inr (Or.inr hD))
            · exfalso
              apply hc
              refine ⟨fun h => hA h.symm, ?_, ?_, hD⟩
              · exact Option.not_isSome_iff_eq_none.mp hB
              · exact Option.not_isSome_iff_eq_none.mp hC
    have hm : move s a d = (s, false, none) := by
      simp only [move, hT, Bool.false_eq_true, if_false]
    have hm1 : (move s a d).1 = s := by
      rw [hm]
    have hm2 : (move s a d).2.1 = false := by
      rw [hm]
    refine ⟨?_, fun _ => hm1, ?_⟩
    · rw [hm2]
      exact iff_of_false (by simp) hc
    · intro h
      rw [hm2] at h
      exact absurd h (by simp)

/-- Witness for the C1 theorem: in `sW5` actor 0 moves right onto a free
cell; the move condition holds, the move reports true, and the actor ends on
the target cell. -/
theorem move_spec_witness :
    (move sW5 0 .right).2.1 = true ∧
    (move sW5 0 .right).1.positions.getD 0 c0 = calcTarget sW5 0 .right := by
  have h := move_spec sW5 0 .right (by decide)
  have hmoved : (move sW5 0 .right).2.1 = true := h.1.mpr (by decide)
  exact ⟨hmoved, (h.2.2 hmoved).1⟩

/-- C4 counterexample: in `sC4` the base sits in the corner of a 3 by 3
board and every free candidate cell lies at offset +2 from the base; the
respawn succeeds and lands the actor on a cell outside the half-open window
of the shared area enumeration that the claim names. -/
theorem respawn_outside_shared_area_window :
    (respawn sC4 0 0).isSome = true ∧
    ((respawn sC4 0 0).getD default).positions.getD 0 c0 ∉
      getAreaPositions sC4.mapSize (sC4.bases.getD (teamOf sC4 0) c0) 2 := by
  decide

/-- C4 (amended): a successful respawn relocates the actor into the
inclusive five-by-five window that `_respawn` enumerates around its team
base (both offsets ranging from -2 to +2), onto a cell free of flags,
actors, bases and walls; the flag positions are untouched, the actor's
carried-flag reference is cleared, and every other actor is unchanged. -/
theorem respawn_spec (s : GameState) (a k : Nat) (s' : GameState)
    (ha : a < s.positions.length)
    (hr : respawn s a k = some s') :
    s'.positions.getD a c0 ∈
        respawnWindow s.mapSize (s.bases.getD (teamOf s a) c0) ∧
    s'.positions.getD a c0 ∉ s.flags ∧
    s'.positions.getD a c0 ∉ s.positions ∧
    s'.positions.getD a c0 ∉ s.bases ∧
    s'.positions.getD a c0 ∉ s.walls ∧
    s'.flags = s.flags ∧
    s'.held.getD a none = none ∧
    (∀ j, j ≠ a → s'.held.getD j none = s.held.getD j none) ∧
    (∀ j, j ≠ a → s'.positions.getD j c0 = s.positions.getD j c0) ∧
    s'.positions.length = s.positions.length := by
  simp only [respawn, placeActorInArea] at hr
  cases hall : (respawnWindow s.mapSize
      (s.bases.getD (teamOf s a) c0)).filter
      (fun c => decide (c ∉ s.flags ++ s.positions ++ s.bases ++ s.walls)) with
  | nil =>
    rw [hall] at hr
    exact Option.noConfusion hr
  | cons p ps =>
    rw [hall] at hr
    have hr' := Option.some.inj hr
    set target := (p :: ps).getD (k % (p :: ps).length) c0 with htarget
    have hmem : target ∈ p :: ps :=
      getD_mem _ _ _ (Nat.mod_lt _ (by simp))
    have hmemf : target ∈ (respawnWindow s.mapSize
        (s.bases.getD (teamOf s a) c0)).filter
        (fun c => decide (c ∉ s.flags ++ s.positions ++ s.bases ++ s.walls)) := by
      rw [hall]
      exact hmem
    rw [List.mem_filter] at hmemf
    obtain ⟨hwin, hforb⟩ := hmemf
    have hforb' : target ∉ s.flags ++ s.positions ++ s.bases ++ s.walls :=
      of_decide_eq_true hforb
    simp only [List.mem_append] at hforb'
    push_neg at hforb'
    obtain ⟨⟨⟨hnf, hnp⟩, hnb⟩, hnw⟩ := hforb'
    cases hh : s.held.getD a none with
    | some f0 =>
      rw [hh] at hr'
      subst hr'
      refine ⟨?_, ?_, ?_, ?_, ?_, rfl, ?_, ?_, ?_, by simp⟩
      · rw [getD_set_self _ _ _ _ (by simpa using ha)]
        exact hwin
      · rw [getD_set_self _ _ _ _ (by simpa using ha)]
        exact hnf
      · rw [getD_set_self _ _ _ _ (by simpa using ha)]
        exact hnp
      · rw [getD_set_self _ _ _ _ (by simpa using ha)]
        exact hnb
      · rw [getD_set_self _ _ _ _ (by simpa using ha)]
        exact hnw
      · exact getD_set_default s.held a none
      · intro j hj
        exact getD_set_ne _ _ _ _ _ fun h => hj h.symm
      · intro j hj
        exact getD_set_ne _ _ _ _ _ fun h => hj h.symm
    | none =>
      rw [hh] at hr'
      subst hr'
      refine ⟨?_, ?_, ?_, ?_, ?_, rfl, hh, ?_, ?_, by simp⟩
      · rw [getD_set_self _ _ _ _ ha]
        exact hwin
      · rw [getD_set_self _ _ _ _ ha]
        exact hnf
      · rw [getD_set_self _ _ _ _ ha]
        exact hnp
      · rw [getD_set_self _ _ _ _ ha]
        exact hnb
      · rw [getD_set_self _ _ _ _ ha]
        exact hnw
      · intro j hj
        rfl
      · intro j hj
        exact getD_set_ne _ _ _ _ _ fun h => hj h.symm

/-- Witness for the C4 theorem: the respawn in `sC4` concretely yields
`sC4'`, whose landing cell avoids the occupied cells. -/
theorem respawn_spec_witness :
    respawn sC4 0 0 = some sC4' ∧
    sC4'.positions.getD 0 c0 ∉ sC4.positions ∧
    sC4'.positions.getD 0 c0 ∉ sC4.walls := by
  have h := respawn_spec sC4 0 0 sC4' (by decide) (by decide)
  exact ⟨by decide, h.2.2.1, h.2.2.2.2.1⟩

/-- C2 counterexample: in `sC2`, team 1 satisfies the claimed scoring
condition (flag 0 rests on base 1, owners differ, home-flag rule disabled),
yet the check does not report team 1 — it reports the team of the last
evaluated scoring flag instead, so the claimed biconditional fails. -/
theorem score_not_every_qualifying_team_reported :
    scoreClaimCond sC2 none 1 ∧ checkScoreConditions sC2 none ≠ some 1 := by
  decide

/-- C2 (amended): the scoring check reports only teams satisfying the
claimed condition (it returns the one triggered by the last evaluated
scoring flag when several qualify), and it reports no team exactly when no
evaluated flag satisfies the condition; the check is a pure query and
modifies no state. -/
theorem score_conditions_spec (s : GameState) (fo : Option Nat)
    (hb : s.bases.Nodup) :
    (∀ T, checkScoreConditions s fo = some T → scoreClaimCond s fo T) ∧
    (checkScoreConditions s fo = none ↔ ∀ T, ¬ scoreClaimCond s fo T) := by
  constructor
  · intro T h
    simp only [checkScoreConditions] at h
    rcases scoreFold_some _ _ _ h with ⟨f, hf, hfs⟩ | habs
    · exact ⟨f, hf, (flagScores_eq_some_iff hb).mp hfs⟩
    · exact Option.noConfusion habs
  · simp only [checkScoreConditions]
    rw [scoreFold_none_iff]
    constructor
    · rintro ⟨-, hall⟩ T ⟨f, hf, hprops⟩
      have hcontra := (flagScores_eq_some_iff hb).mpr hprops
      rw [hall f hf] at hcontra
      exact Option.noConfusion hcontra
    · intro hnone
      refine ⟨rfl, fun f hf => ?_⟩
      cases hfs : flagScores s f with
      | none => rfl
      | some b =>
        exact absurd ⟨f, hf, (flagScores_eq_some_iff hb).mp hfs⟩ (hnone b)

/-- Witness for the C2 theorem: in `sW2` flag 1 rests on base 0 with team
0's own flag home; the check reports team 0 and team 0 satisfies the claimed
condition. -/
theorem score_conditions_spec_witness :
    checkScoreConditions sW2 none = some 0 ∧ scoreClaimCond sW2 none 0 := by
  refine ⟨by decide, ?_⟩
  exact (score_conditions_spec sW2 none (by decide)).1 0 (by decide)

/-- C3 counterexample: in `sC3` the actor's own flag 0 lies on the actor's
cell, but the enemy flag 1 lies there too and is the one the reverse index
yields; the flag-return check changes nothing, whereas the claim demands the
own flag be teleported to its base. -/
theorem flag_return_skips_own_flag_under_enemy_flag :
    sC3.flags.getD 0 c0 = sC3.positions.getD 0 c0 ∧
    teamOf sC3 0 = 0 ∧
    checkFlagReturnConditions sC3 0 = (sC3, none) ∧
    sC3.flags.getD 0 c0 ≠ sC3.bases.getD 0 c0 := by
  decide

/-- C3 (amended): the flag-return check consults the reverse position-flag
index at the actor's cell (so when several flags share the cell only the
last team's flag there is considered). If the flag so found is the actor's
own team's, that flag is teleported to its base, the score condition is then
evaluated over all flags, and the actor's carried reference is cleared; all
other flags and all positions stay. If the actor's own flag does not lie on
the actor's cell, nothing changes and no team is reported. -/
theorem flag_return_spec (s : GameState) (a : Nat)
    (hteam : teamOf s a < s.flags.length) :
    (lastIdxOf s.flags (s.positions.getD a c0) = some (teamOf s a) →
      (checkFlagReturnConditions s a).1.flags.getD (teamOf s a) c0 =
          s.bases.getD (teamOf s a) c0 ∧
        (checkFlagReturnConditions s a).1.held.getD a none = none ∧
        (checkFlagReturnConditions s a).2 =
          checkScoreConditions (returnFlagToBase s (teamOf s a)) none ∧
        (∀ g, g ≠ teamOf s a →
          (checkFlagReturnConditions s a).1.flags.getD g c0 =
            s.flags.getD g c0) ∧
        (checkFlagReturnConditions s a).1.positions = s.positions) ∧
    (s.flags.getD (teamOf s a) c0 ≠ s.positions.getD a c0 →
      checkFlagReturnConditions s a = (s, none)) := by
  constructor
  · intro hsel
    rcases cfrc_eq s a with ⟨-, hne⟩ | ⟨-, heq⟩
    · exact absurd hsel hne
    · have h1 : (checkFlagReturnConditions s a).1 =
          { s with
              flags := s.flags.set (teamOf s a) (s.bases.getD (teamOf s a) c0),
              held := s.held.set a none } := by
        rw [heq]
      have h2 : (checkFlagReturnConditions s a).2 =
          checkScoreConditions (returnFlagToBase s (teamOf s a)) none := by
        rw [heq]
      refine ⟨?_, ?_, h2, ?_, ?_⟩
      · rw [h1]
        exact getD_set_self _ _ _ _ hteam
      · rw [h1]
        exact getD_set_default s.held a none
      · intro g hg
        rw [h1]
        exact getD_set_ne _ _ _ _ _ fun h => hg h.symm
      · rw [h1]
  · intro hnofl
    rcases cfrc_eq s a with ⟨heq, -⟩ | ⟨hsel, -⟩
    · exact heq
    · exact absurd (lastIdxOf_getD c0 hsel) hnofl

/-- Witness for the C3 theorem: in `sW3` the actor stands on its own resting
flag; the return teleports the flag to base (2,2) and the carried reference
stays clear. -/
theorem flag_return_spec_witness :
    (checkFlagReturnConditions sW3 0).1.flags.getD 0 c0 =
      sW3.bases.getD 0 c0 ∧
    (checkFlagReturnConditions sW3 0).1.held.getD 0 none = none := by
  have h := (flag_return_spec sW3 0 (by decide)).1 (by decide)
  exact ⟨h.1, h.2.1⟩

/-- C6 counterexample: an actor with grab probability 1 that puts its
carried flag toward a wall fails, and an actor with grab probability 0 that
puts its carried flag onto a free cell succeeds — put outcomes do not follow
the actor's grab probability as the claim states. -/
theorem grabput_probability_claim_false :
    ((sC6a.actors.getD 0 a0).grab = 1 ∧
      (grabputFlag sC6a 0 .right 0).2.1 = false) ∧
    ((sC6b.actors.getD 0 a0).grab = 0 ∧
      (grabputFlag sC6b 0 .right 0).2.1 = true) := by
  decide

/-- C6 (amended): with grab probability 1 every grab attempt (a flag rests
at the target cell) succeeds; with grab probability 0 grab attempts never
succeed and change no state; put attempts are deterministic and independent
of the putter's grab probability — they succeed exactly when the occupied
target's occupant has nonzero grab probability and no flag, or the
unoccupied target is not a wall. -/
theorem grabput_probability_spec (s : GameState) (a : Nat) (d : Directions)
    (r : Rat) (hr0 : 0 ≤ r) (hr1 : r < 1) :
    ((s.actors.getD a a0).grab = 1 → s.held.getD a none = none →
      (lastIdxOf s.flags (calcTarget s a d)).isSome = true →
      (grabputFlag s a d r).2.1 = true) ∧
    (∀ f, s.held.getD a none = some f →
      ((grabputFlag s a d r).2.1 = true ↔
        (match lastIdxOf s.positions (calcTarget s a d) with
         | some ta =>
             ¬ (s.actors.getD ta a0).grab = 0 ∧ s.held.getD ta none = none
         | none => calcTarget s a d ∉ s.walls))) ∧
    ((s.actors.getD a a0).grab = 0 → s.held.getD a none = none →
      grabputFlag s a d r = (s, false, none)) := by
  refine ⟨?_, ?_, ?_⟩
  · intro hgrab hheld hflag
    obtain ⟨f, hf⟩ := Option.isSome_iff_exists.mp hflag
    have hsucc : r < (s.actors.getD a a0).grab := by
      rw [hgrab]
      exact hr1
    simp only [grabputFlag, hheld, hf]
    rw [if_pos hsucc]
  · intro f hheld
    cases hta : lastIdxOf s.positions (calcTarget s a d) with
    | some ta =>
      simp only [grabputFlag, hheld, hta]
      by_cases hg0 : (s.actors.getD ta a0).grab = 0
      · rw [if_pos hg0]
        exact iff_of_false (by simp) fun h => h.1 hg0
      · rw [if_neg hg0]
        cases hh : s.held.getD ta none with
        | some x =>
          exact iff_of_false (by simp) fun h => Option.noConfusion h.2
        | none =>
          exact iff_of_true rfl ⟨hg0, rfl⟩
    | none =>
      simp only [grabputFlag, hheld, hta]
      by_cases hw : calcTarget s a d ∈ s.walls
      · rw [if_pos hw]
        exact iff_of_false (by simp) fun h => h hw
      · rw [if_neg hw]
        exact iff_of_true rfl hw
  · intro hgrab hheld
    cases hfl : lastIdxOf s.flags (calcTarget s a d) with
    | none => simp only [grabputFlag, hheld, hfl]
    | some f =>
      simp only [grabputFlag, hheld, hfl]
      have hnsucc : ¬ r < (s.actors.getD a a0).grab := by
        rw [hgrab]
        exact not_lt.mpr hr0
      rw [if_neg hnsucc]

/-- Witness for the C6 theorem: in `sW6` the grab-probability-1 actor grabs
the flag resting to its right with drawn value 0, and the grab succeeds. -/
theorem grabput_probability_spec_witness :
    (0 : Rat) ≤ 0 ∧ (0 : Rat) < 1 ∧
    (grabputFlag sW6 0 .right 0).2.1 = true := by
  refine ⟨le_refl 0, by norm_num, ?_⟩
  exact (grabput_probability_spec sW6 0 .right 0 (le_refl 0) (by norm_num)).1
    (by decide) (by decide) (by decide)

/-- C7 counterexample: in `sC7` the grabber (team 1) grabs at a cell holding
both its own flag 1 (the one the reverse index yields) and flag 0 carried by
the team-0 actor standing there. The grab succeeds, yet the grabbed flag
does not end at the grabber's cell (the flag-return rule teleports it home),
the grabber's reference is not the grabbed flag, and the target actor's
reference is cleared although it held a different flag. -/
theorem grab_claim_false_at_shared_flag_cell :
    (grabputFlag sC7 0 .up 0).2.1 = true ∧
    lastIdxOf sC7.flags (calcTarget sC7 0 .up) = some 1 ∧
    (grabputFlag sC7 0 .up 0).1.flags.getD 1 c0 ≠ sC7.positions.getD 0 c0 ∧
    (grabputFlag sC7 0 .up 0).1.held.getD 0 none ≠ some 1 ∧
    sC7.held.getD 1 none = some 0 ∧
    (grabputFlag sC7 0 .up 0).1.held.getD 1 none = none := by
  decide

/-- C7 (amended): after a successful grab of the flag `f` found at the
target cell (a cell other than the grabber's own), the flag reference of the
actor occupying the target cell, if any, is cleared unconditionally — even
if it held a different flag — and every other actor apart from the grabber
keeps its reference. The grabbed flag's position becomes the grabber's cell
and the grabber's reference becomes `f`, unless the reverse index at the
grabber's cell then yields the grabber's own team's flag, in which case the
flag-return rule teleports that flag to its base and clears the grabber's
reference. -/
theorem grab_success_spec (s : GameState) (a : Nat) (d : Directions) (r : Rat)
    (f : Nat)
    (hahl : a < s.held.length)
    (hheld : s.held.getD a none = none)
    (hf : lastIdxOf s.flags (calcTarget s a d) = some f)
    (hsucc : r < (s.actors.getD a a0).grab)
    (hne : calcTarget s a d ≠ s.positions.getD a c0) :
    (grabputFlag s a d r).2.1 = true ∧
    (∀ j, j ≠ a → lastIdxOf s.positions (calcTarget s a d) ≠ some j →
      (grabputFlag s a d r).1.held.getD j none = s.held.getD j none) ∧
    (∀ ta, lastIdxOf s.positions (calcTarget s a d) = some ta →
      (grabputFlag s a d r).1.held.getD ta none = none) ∧
    (lastIdxOf (s.flags.set f (s.positions.getD a c0))
        (s.positions.getD a c0) = some (teamOf s a) →
      (grabputFlag s a d r).1.held.getD a none = none ∧
      (grabputFlag s a d r).1.flags.getD (teamOf s a) c0 =
        s.bases.getD (teamOf s a) c0 ∧
      (f ≠ teamOf s a →
        (grabputFlag s a d r).1.flags.getD f c0 = s.positions.getD a c0)) ∧
    (lastIdxOf (s.flags.set f (s.positions.getD a c0))
        (s.positions.getD a c0) ≠ some (teamOf s a) →
      (grabputFlag s a d r).1.held.getD a none = some f ∧
      (grabputFlag s a d r).1.flags.getD f c0 = s.positions.getD a c0) := by
  have hflen : f < s.flags.length := lastIdxOf_lt_length hf
  cases hta : lastIdxOf s.positions (calcTarget s a d) with
  | some ta =>
    have htane : ta ≠ a := by
      intro h
      subst h
      exact hne (lastIdxOf_getD c0 hta).symm
    have hgp : grabputFlag s a d r =
        ((checkFlagReturnConditions
            { s with flags := s.flags.set f (s.positions.getD a c0),
                     held := (s.held.set a (some f)).set ta none } a).1,
          true,
          (checkFlagReturnConditions
            { s with flags := s.flags.set f (s.positions.getD a c0),
                     held := (s.held.set a (some f)).set ta none } a).2) := by
      simp only [grabputFlag, hheld, hf, hta]
      rw [if_pos hsucc]
    have hg1 : (grabputFlag s a d r).1 =
        (checkFlagReturnConditions
          { s with flags := s.flags.set f (s.positions.getD a c0),
                   held := (s.held.set a (some f)).set ta none } a).1 := by
      rw [hgp]
    have hg2 : (grabputFlag s a d r).2.1 = true := by
      rw [hgp]
    refine ⟨hg2, ?_, ?_, ?_, ?_⟩
    · intro j hj hjne
      have hjta : j ≠ ta := fun h => hjne (by rw [h])
      rcases cfrc_eq
          { s with flags := s.flags.set f (s.positions.getD a c0),
                   held := (s.held.set a (some f)).set ta none } a with
        ⟨heq, -⟩ | ⟨-, heq⟩
      · rw [hg1, heq]
        show ((s.held.set a (some f)).set ta none).getD j none =
          s.held.getD j none
        rw [getD_set_ne _ _ _ _ _ fun h => hjta h.symm,
          getD_set_ne _ _ _ _ _ fun h => hj h.symm]
      · rw [hg1, heq]
        show (((s.held.set a (some f)).set ta none).set a none).getD j none =
          s.held.getD j none
        rw [getD_set_ne _ _ _ _ _ fun h => hj h.symm,
          getD_set_ne _ _ _ _ _ fun h => hjta h.symm,
          getD_set_ne _ _ _ _ _ fun h => hj h.symm]
    · intro ta' hta'
      obtain rfl := Option.some.inj hta'
      rcases cfrc_eq
          { s with flags := s.flags.set f (s.positions.getD a c0),
                   held := (s.held.set a (some f)).set ta none } a with
        ⟨heq, -⟩ | ⟨-, heq⟩
      · rw [hg1, heq]
        show ((s.held.set a (some f)).set ta none).getD ta none = none
        exact getD_set_default _ _ _
      · rw [hg1, heq]
        show (((s.held.set a (some f)).set ta none).set a none).getD ta none
          = none
        rw [getD_set_ne _ _ _ _ _ fun h => htane h.symm]
        exact getD_set_default _ _ _
    · intro hsel
      rcases cfrc_eq
          { s with flags := s.flags.set f (s.positions.getD a c0),
                   held := (s.held.set a (some f)).set ta none } a with
        ⟨-, hne'⟩ | ⟨-, heq⟩
      · exact absurd hsel hne'
      · have hteamlen : teamOf s a < s.flags.length := by
          have := lastIdxOf_lt_length hsel
          simpa using this
        refine ⟨?_, ?_, ?_⟩
        · rw [hg1, heq]
          show ((((s.held.set a (some f)).set ta none)).set a none).getD a none
            = none
          exact getD_set_default _ _ _
        · rw [hg1, heq]
          show ((s.flags.set f (s.positions.getD a c0)).set (teamOf s a)
              (s.bases.getD (teamOf s a) c0)).getD (teamOf s a) c0 =
            s.bases.getD (teamOf s a) c0
          rw [getD_set_self _ _ _ _ (by simpa using hteamlen)]
        · intro hfne
          rw [hg1, heq]
          show ((s.flags.set f (s.positions.getD a c0)).set (teamOf s a)
              (s.bases.getD (teamOf s a) c0)).getD f c0 =
            s.positions.getD a c0
          rw [getD_set_ne _ _ _ _ _ fun h => hfne h.symm,
            getD_set_self _ _ _ _ hflen]
    · intro hsel
      rcases cfrc_eq
          { s with flags := s.flags.set f (s.positions.getD a c0),
                   held := (s.held.set a (some f)).set ta none } a with
        ⟨heq, -⟩ | ⟨hsel', -⟩
      · constructor
        · rw [hg1, heq]
          show ((s.held.set a (some f)).set ta none).getD a none = some f
          rw [getD_set_ne _ _ _ _ _ htane]
          exact getD_set_self _ _ _ _ hahl
        · rw [hg1, heq]
          show (s.flags.set f (s.positions.getD a c0)).getD f c0 =
            s.positions.getD a c0
          exact getD_set_self _ _ _ _ hflen
      · exact absurd hsel' hsel
  | none =>
    have hgp : grabputFlag s a d r =
        ((checkFlagReturnConditions
            { s with flags := s.flags.set f (s.positions.getD a c0),
                     held := s.held.set a (some f) } a).1,
          true,
          (checkFlagReturnConditions
            { s with flags := s.flags.set f (s.positions.getD a c0),
                     held := s.held.set a (some f) } a).2) := by
      simp only [grabputFlag, hheld, hf, hta]
      rw [if_pos hsucc]
    have hg1 : (grabputFlag s a d r).1 =
        (checkFlagReturnConditions
          { s with flags := s.flags.set f (s.positions.getD a c0),
                   held := s.held.set a (some f) } a).1 := by
      rw [hgp]
    have hg2 : (grabputFlag s a d r).2.1 = true := by
      rw [hgp]
    refine ⟨hg2, ?_, ?_, ?_, ?_⟩
    · intro j hj hjne
      rcases cfrc_eq
          { s with flags := s.flags.set f (s.positions.getD a c0),
                   held := s.held.set a (some f) } a with
        ⟨heq, -⟩ | ⟨-, heq⟩
      · rw [hg1, heq]
        show (s.held.set a (some f)).getD j none = s.held.getD j none
        rw [getD_set_ne _ _ _ _ _ fun h => hj h.symm]
      · rw [hg1, heq]
        show ((s.held.set a (some f)).set a none).getD j none =
          s.held.getD j none
        rw [getD_set_ne _ _ _ _ _ fun h => hj h.symm,
          getD_set_ne _ _ _ _ _ fun h => hj h.symm]
    · intro ta' hta'
      exact Option.noConfusion hta'
    · intro hsel
      rcases cfrc_eq
          { s with flags := s.flags.set f (s.positions.getD a c0),
                   held := s.held.set a (some f) } a with
        ⟨-, hne'⟩ | ⟨-, heq⟩
      · exact absurd hsel hne'
      · have hteamlen : teamOf s a < s.flags.length := by
          have := lastIdxOf_lt_length hsel
          simpa using this
        refine ⟨?_, ?_, ?_⟩
        · rw [hg1, heq]
          show ((s.held.set a (some f)).set a none).getD a none = none
          exact getD_set_default _ _ _
        · rw [hg1, heq]
          show ((s.flags.set f (s.positions.getD a c0)).set (teamOf s a)
              (s.bases.getD (teamOf s a) c0)).getD (teamOf s a) c0 =
            s.bases.getD (teamOf s a) c0
          rw [getD_set_self _ _ _ _ (by simpa using hteamlen)]
        · intro hfne
          rw [hg1, heq]
          show ((s.flags.set f (s.positions.getD a c0)).set (teamOf s a)
              (s.bases.getD (teamOf s a) c0)).getD f c0 =
            s.positions.getD a c0
          rw [getD_set_ne _ _ _ _ _ fun h => hfne h.symm,
            getD_set_self _ _ _ _ hflen]
    · intro hsel
      rcases cfrc_eq
          { s with flags := s.flags.set f (s.positions.getD a c0),
                   held := s.held.set a (some f) } a with
        ⟨heq, -⟩ | ⟨hsel', -⟩
      · constructor
        · rw [hg1, heq]
          show (s.held.set a (some f)).getD a none = some f
          exact getD_set_self _ _ _ _ hahl
        · rw [hg1, heq]
          show (s.flags.set f (s.positions.getD a c0)).getD f c0 =
            s.positions.getD a c0
          exact getD_set_self _ _ _ _ hflen
      · exact absurd hsel' hsel

/-- Witness for the C7 theorem: in `sW6` the grab of the enemy flag 1
succeeds, the flag moves to the grabber's cell (0,0), and the grabber's
reference becomes flag 1. -/
theorem grab_success_spec_witness :
    (grabputFlag sW6 0 .right 0).2.1 = true ∧
    (grabputFlag sW6 0 .right 0).1.held.getD 0 none = some 1 ∧
    (grabputFlag sW6 0 .right 0).1.flags.getD 1 c0 =
      sW6.positions.getD 0 c0 := by
  have h := grab_success_spec sW6 0 .right 0 1 (by decide) (by decide)
    (by decide) (by decide) (by decide)
  have h5 := h.2.2.2.2 (by decide)
  exact ⟨h.1, h5.1, h5.2⟩

theorem reject_disj_of_not_conj {s : GameState} {a : Nat} {t : Coordinates}
    (hc : ¬(t ≠ s.positions.getD a c0 ∧ lastIdxOf s.positions t = none ∧
        lastIdxOf s.bases t = none ∧ t ∉ s.walls)) :
    s.positions.getD a c0 = t ∨ (lastIdxOf s.positions t).isSome = true ∨
      (lastIdxOf s.bases t).isSome = true ∨ t ∈ s.walls := by
  by_cases hA : s.positions.getD a c0 = t
  · exact Or.inl hA
  · by_cases hB : (lastIdxOf s.positions t).isSome = true
    · exact Or.inr (Or.inl hB)
    · by_cases hC : (lastIdxOf s.bases t).isSome = true
      · exact Or.inr (Or.inr (Or.inl hC))
      · by_cases hD : t ∈ s.walls
        · exact Or.inr (Or.inr (Or.inr hD))
        · exact absurd ⟨fun h => hA h.symm,
            Option.not_isSome_iff_eq_none.mp hB,
            Option.not_isSome_iff_eq_none.mp hC, hD⟩ hc

theorem move_positions (s : GameState) (a : Nat) (d : Directions) :
    (move s a d).1.positions = s.positions ∨
    ((move s a d).1.positions = s.positions.set a (calcTarget s a d) ∧
      lastIdxOf s.positions (calcTarget s a d) = none) := by
  by_cases hc : calcTarget s a d ≠ s.positions.getD a c0 ∧
      lastIdxOf s.positions (calcTarget s a d) = none ∧
      lastIdxOf s.bases (calcTarget s a d) = none ∧
      calcTarget s a d ∉ s.walls
  · obtain ⟨hA, hB, hC, hD⟩ := hc
    have hA' : ¬ s.positions.getD a c0 = calcTarget s a d := fun h => hA h.symm
    right
    refine ⟨?_, hB⟩
    cases hh : s.held.getD a none with
    | none =>
      have hT := tryPutActor_moved_free hA' hB hC hD hh
      have hm : move s a d =
          ((checkFlagReturnConditions
              { s with positions := s.positions.set a (calcTarget s a d) } a).1,
            true,
            (checkFlagReturnConditions
              { s with positions := s.positions.set a (calcTarget s a d) } a).2) := by
        simp only [move, hT, if_true]
      have hm1 : (move s a d).1 =
          (checkFlagReturnConditions
            { s with positions := s.positions.set a (calcTarget s a d) } a).1 := by
        rw [hm]
      rw [hm1, cfrc_positions]
    | some f0 =>
      have hT := tryPutActor_moved_held hA' hB hC hD hh
      have hm : move s a d =
          ((checkFlagReturnConditions
              { s with positions := s.positions.set a (calcTarget s a d),
                       flags := s.flags.set f0 (calcTarget s a d) } a).1,
            true,
            (checkFlagReturnConditions
              { s with positions := s.positions.set a (calcTarget s a d),
                       flags := s.flags.set f0 (calcTarget s a d) } a).2) := by
        simp only [move, hT, if_true]
      have hm1 : (move s a d).1 =
          (checkFlagReturnConditions
            { s with positions := s.positions.set a (calcTarget s a d),
                     flags := s.flags.set f0 (calcTarget s a d) } a).1 := by
        rw [hm]
      rw [hm1, cfrc_positions]
  · left
    have hT : tryPutActor s a (calcTarget s a d) = (s, false) :=
      tryPutActor_not_moved (reject_disj_of_not_conj hc)
    have hm : move s a d = (s, false, none) := by
      simp only [move, hT, Bool.false_eq_true, if_false]
    rw [hm]

theorem grabput_positions (s : GameState) (a : Nat) (d : Directions)
    (r : Rat) : (grabputFlag s a d r).1.positions = s.positions := by
  simp only [grabputFlag]
  split
  · split
    · split
      · rfl
      · split
        · rfl
        · exact cfrc_positions _ _
    · split
      · rfl
      · rfl
  · split
    · rfl
    · split
      · split
        · exact cfrc_positions _ _
        · exact cfrc_positions _ _
      · rfl

theorem actorsDistinct_of_positions_eq {s s' : GameState}
    (h : s'.positions = s.positions) (hinv : actorsDistinct s) :
    actorsDistinct s' := by
  intro i hi j hj hij
  rw [h] at hi hj ⊢
  exact hinv i hi j hj hij

theorem distinct_set_of_not_mem (l : List Coordinates) (a : Nat)
    (t : Coordinates) (ht : t ∉ l)
    (hinv : ∀ i, i < l.length → ∀ j, j < l.length → i ≠ j →
      l.getD i c0 ≠ l.getD j c0) :
    ∀ i, i < (l.set a t).length → ∀ j, j < (l.set a t).length → i ≠ j →
      (l.set a t).getD i c0 ≠ (l.set a t).getD j c0 := by
  intro i hi j hj hij
  rw [List.length_set] at hi hj
  by_cases hia : i = a
  · subst hia
    rw [getD_set_self _ _ _ _ hi, getD_set_ne _ _ _ _ _ hij]
    intro hcontra
    exact ht (hcontra.symm ▸ getD_mem l j c0 hj)
  · by_cases hja : j = a
    · subst hja
      rw [getD_set_self _ _ _ _ hj, getD_set_ne _ _ _ _ _ fun h => hij h.symm]
      intro hcontra
      exact ht (hcontra ▸ getD_mem l i c0 hi)
    · rw [getD_set_ne _ _ _ _ _ fun h => hia h.symm,
        getD_set_ne _ _ _ _ _ fun h => hja h.symm]
      exact hinv i hi j hj hij

/-- C5: the at-most-one-actor-per-cell invariant is preserved by every
engine operation: by a move, by an attack together with the respawn it may
trigger, and by a grab or put. -/
theorem engine_preserves_actor_exclusion (s : GameState) (a : Nat)
    (d : Directions) (r : Rat) (k : Nat) (hinv : actorsDistinct s) :
    actorsDistinct (move s a d).1 ∧
    (∀ s' b, attack s a d r k = some (s', b) → actorsDistinct s') ∧
    actorsDistinct (grabputFlag s a d r).1 := by
  refine ⟨?_, ?_, ?_⟩
  · rcases move_positions s a d with h | ⟨h, hfree⟩
    · exact actorsDistinct_of_positions_eq h hinv
    · intro i hi j hj hij
      rw [h] at hi hj ⊢
      exact distinct_set_of_not_mem s.positions a (calcTarget s a d)
        ((lastIdxOf_eq_none_iff _ _).mp hfree) hinv i hi j hj hij
  · intro s' b hatk
    simp only [attack] at hatk
    split at hatk
    · cases hatk
      exact hinv
    · split at hatk
      · cases hatk
        exact hinv
      · rename_i target htgt
        split at hatk
        · split at hatk
          · exact Option.noConfusion hatk
          · rename_i s1 hresp
            cases hatk
            obtain ⟨-, -, hnp, -, -, -, -, -, hframe, hlen⟩ :=
              respawn_spec s target k s' (lastIdxOf_lt_length htgt) hresp
            intro i hi j hj hij
            rw [hlen] at hi hj
            by_cases hit : i = target
            · subst hit
              rw [hframe j fun h => hij h.symm]
              intro hcontra
              exact hnp (hcontra.symm ▸ getD_mem s.positions j c0 hj)
            · by_cases hjt : j = target
              · subst hjt
                rw [hframe i hit]
                intro hcontra
                exact hnp (hcontra ▸ getD_mem s.positions i c0 hi)
              · rw [hframe i hit, hframe j hjt]
                exact hinv i hi j hj hij
        · cases hatk
          exact hinv
  · exact actorsDistinct_of_positions_eq (grabput_positions s a d r) hinv

/-- Witness for the C5 theorem: the two-actor state `sW5` satisfies the
invariant, and it still holds after actor 0 moves right. -/
theorem engine_preserves_actor_exclusion_witness :
    actorsDistinct sW5 ∧ actorsDistinct (move sW5 0 .right).1 := by
  have h := engine_preserves_actor_exclusion sW5 0 .right 0 0 (by decide)
  exact ⟨by decide, h.1⟩

/-! Lemmas about the base and flag placement loop. -/

theorem nat_sqrt_eq_of {m k : Nat} (h1 : k * k ≤ m) (h2 : m < (k + 1) ^ 2) :
    Nat.sqrt m = k :=
  Nat.le_antisymm (Nat.lt_succ_iff.mp (Nat.sqrt_lt'.mpr h2))
    (Nat.le_sqrt.mpr h1)

theorem minimumDistance_ten_two : minimumDistance 10 2 = 4 := by
  unfold minimumDistance
  rw [show (25 * 10 ^ 2 / (36 * 2) : Nat) = 34 from by norm_num]
  rw [show Nat.sqrt 34 = 5 from nat_sqrt_eq_of (by norm_num) (by norm_num)]
  norm_num

theorem minimumDistance_five_two : minimumDistance 5 2 = 1 := by
  unfold minimumDistance
  rw [show (25 * 5 ^ 2 / (36 * 2) : Nat) = 8 from by norm_num]
  rw [show Nat.sqrt 8 = 2 from nat_sqrt_eq_of (by norm_num) (by norm_num)]
  norm_num

theorem getD_replicate_none {α : Type} (T t : Nat) :
    (List.replicate T (none : Option α)).getD t none = none := by
  induction T generalizing t with
  | zero => simp
  | succ T ih =>
    cases t with
    | zero => rfl
    | succ t =>
      simp only [List.replicate, List.getD_cons_succ]
      exact ih t

theorem placeLoop_didReset_mono (n T : Nat) (d : Int) :
    ∀ fuel cs st st', placeLoop n T d fuel cs st = some st' →
      st.didReset = true → st'.didReset = true := by
  intro fuel
  induction fuel with
  | zero =>
    intro cs st st' h hre
    exact Option.noConfusion h
  | succ fuel ih =>
    intro cs st st' h hre
    simp only [placeLoop] at h
    split at h
    · split at h
      · exact ih _ _ _ h rfl
      · exact ih _ _ _ h hre
    · cases h
      exact hre

theorem placeLoop_inv (n T : Nat) (d : Int) (hd : 0 ≤ d) :
    ∀ fuel cs st st', placeLoop n T d fuel cs st = some st' →
      st'.didReset = false → st.didReset = false →
      PlaceInv n T d st → PlaceInv n T d st' ∧ T ≤ st'.idx := by
  intro fuel
  induction fuel with
  | zero =>
    intro cs st st' h hre' hre hinv
    exact Option.noConfusion h
  | succ fuel ih =>
    intro cs st st' h hre' hre hinv
    simp only [placeLoop] at h
    split at h
    · rename_i hidx
      split at h
      · have := placeLoop_didReset_mono n T d fuel _ _ _ h rfl
        rw [this] at hre'
        exact Bool.noConfusion hre'
      · rename_i p ps hpool
        refine ih _ _ _ h hre' hre ?_
        have hlenb : st.bases.length = T := hinv.len_bases
        have hcmem : (p :: ps).getD (cs.headD 0 % (p :: ps).length) c0 ∈
            st.pool := by
          rw [hpool]
          exact getD_mem _ _ _ (Nat.mod_lt _ (by simp))
        set c := (p :: ps).getD (cs.headD 0 % (p :: ps).length) c0 with hcdef
        constructor
        · simpa using hlenb
        · rw [hinv.flags_eq]
        · intro t ht
          have ht' : t < st.idx + 1 := ht
          by_cases hti : t = st.idx
          · subst hti
            rw [getD_set_self _ _ _ _ (by rw [hlenb]; exact hidx)]
            rfl
          · rw [getD_set_ne _ _ _ _ _ fun hh => hti hh.symm]
            exact hinv.placed_below t (by omega)
        · intro t c' hc'
          by_cases hti : t = st.idx
          · subst hti
            rw [getD_set_self _ _ _ _ (by rw [hlenb]; exact hidx)] at hc'
            cases hc'
            exact hinv.pool_valid _ hcmem
          · rw [getD_set_ne _ _ _ _ _ fun hh => hti hh.symm] at hc'
            exact hinv.placed_valid t c' hc'
        · intro i j ci cj hij hci hcj
          by_cases hii : i = st.idx
          · subst hii
            rw [getD_set_self _ _ _ _ (by rw [hlenb]; exact hidx)] at hci
            cases hci
            rw [getD_set_ne _ _ _ _ _ hij] at hcj
            have hnot := hinv.pool_excl j cj hcj _ hcmem
            exact sq_dist_ge_of_not_mem_area hd (hinv.pool_valid _ hcmem) hnot
          · rw [getD_set_ne _ _ _ _ _ fun hh => hii hh.symm] at hci
            by_cases hjj : j = st.idx
            · subst hjj
              rw [getD_set_self _ _ _ _ (by rw [hlenb]; exact hidx)] at hcj
              cases hcj
              have hnot := hinv.pool_excl i ci hci _ hcmem
              have hsq := sq_dist_ge_of_not_mem_area hd
                (hinv.pool_valid _ hcmem) hnot
              have hcomm : ∀ u v : Int, (u - v) ^ 2 = (v - u) ^ 2 := by
                intro u v
                ring
              rw [hcomm ((ci.x : Int)) _, hcomm ((ci.y : Int)) _]
              exact hsq
            · rw [getD_set_ne _ _ _ _ _ fun hh => hjj hh.symm] at hcj
              exact hinv.far i j ci cj hij hci hcj
        · intro q hq
          have : q ∈ st.pool := by
            rw [hpool]
            exact (List.mem_filter.mp hq).1
          exact hinv.pool_valid q this
        · intro t c' hc' q hq
          have hqpool : q ∈ st.pool := by
            rw [hpool]
            exact (List.mem_filter.mp hq).1
          by_cases hti : t = st.idx
          · subst hti
            rw [getD_set_self _ _ _ _ (by rw [hlenb]; exact hidx)] at hc'
            cases hc'
            exact of_decide_eq_true (List.mem_filter.mp hq).2
          · rw [getD_set_ne _ _ _ _ _ fun hh => hti hh.symm] at hc'
            exact hinv.pool_excl t c' hc' q hqpool
    · rename_i hidx
      cases h
      exact ⟨hinv, by omega⟩

/-- C8: a run of `_place_bases_and_flags` that completes without ever taking
the empty-pool reset assigns every team a base, assigns each team's flag the
same cell as its base, and keeps every two distinct teams' bases at squared
Euclidean distance at least `minimumDistance ^ 2`. -/
theorem placeBasesAndFlags_spec (n teamCount fuel : Nat) (cs : List Nat)
    (st' : PlaceState)
    (hd : 0 ≤ minimumDistance n teamCount)
    (hrun : placeBasesAndFlags n teamCount fuel cs = some st')
    (hreset : st'.didReset = false) :
    st'.flags = st'.bases ∧
    (∀ t, t < teamCount → (st'.bases.getD t none).isSome = true) ∧
    placedFar (minimumDistance n teamCount) st'.bases := by
  have hinit : PlaceInv n teamCount (minimumDistance n teamCount)
      (initPlaceState n teamCount) := by
    constructor
    · simp [initPlaceState]
    · rfl
    · intro t ht
      exact absurd ht (Nat.not_lt_zero t)
    · intro t c hc
      rw [show (initPlaceState n teamCount).bases =
          List.replicate teamCount none from rfl] at hc
      rw [getD_replicate_none] at hc
      exact Option.noConfusion hc
    · intro i j ci cj hij hci hcj
      rw [show (initPlaceState n teamCount).bases =
          List.replicate teamCount none from rfl] at hci
      rw [getD_replicate_none] at hci
      exact Option.noConfusion hci
    · intro q hq
      rw [show (initPlaceState n teamCount).pool =
          interiorPositions n from rfl] at hq
      rw [mem_interiorPositions] at hq
      exact ⟨by omega, by omega⟩
    · intro t c hc
      rw [show (initPlaceState n teamCount).bases =
          List.replicate teamCount none from rfl] at hc
      rw [getD_replicate_none] at hc
      exact Option.noConfusion hc
  simp only [placeBasesAndFlags] at hrun
  obtain ⟨hinv', hTle⟩ := placeLoop_inv n teamCount
    (minimumDistance n teamCount) hd fuel cs _ st' hrun hreset rfl hinit
  exact ⟨hinv'.flags_eq,
    fun t ht => hinv'.placed_below t (lt_of_lt_of_le ht hTle), hinv'.far⟩

/-- Witness for the C8 theorem: placing two teams on a size-10 map with
choices [0, 3] completes without reset in state `stW8`; its two bases (2,2)
and (3,7) satisfy the spacing bound for minimum distance 4. -/
theorem placeBasesAndFlags_spec_witness :
    0 ≤ minimumDistance 10 2 ∧
    placeBasesAndFlags 10 2 3 [0, 3] = some stW8 ∧
    stW8.didReset = false ∧
    stW8.flags = stW8.bases ∧
    placedFar (minimumDistance 10 2) stW8.bases := by
  have hd : (0 : Int) ≤ minimumDistance 10 2 := by
    rw [minimumDistance_ten_two]
    norm_num
  have hrun : placeBasesAndFlags 10 2 3 [0, 3] = some stW8 := by
    simp only [placeBasesAndFlags, minimumDistance_ten_two]
    decide
  have h := placeBasesAndFlags_spec 10 2 3 [0, 3] stW8 hd hrun (by decide)
  exact ⟨hd, hrun, by decide, h.1, h.2.2⟩

/-- Single step of the placement loop on the size-5 map: the pool is the
lone interior cell (2,2); choosing it empties the pool and advances the team
index. -/
theorem placeLoop_small_step (fuel : Nat) (cs : List Nat) (st : PlaceState)
    (hpool : st.pool = [⟨2, 2⟩]) (hidx : st.idx < 2) :
    placeLoop 5 2 1 (fuel + 1) cs st =
      placeLoop 5 2 1 fuel cs.tail
        { pool := [], idx := st.idx + 1,
          bases := st.bases.set st.idx (some ⟨2, 2⟩),
          flags := st.flags.set st.idx (some ⟨2, 2⟩),
          didReset := st.didReset } := by
  simp only [placeLoop, hpool]
  rw [if_pos hidx]
  have hfalse : (decide ((⟨2, 2⟩ : Coordinates) ∉
      getAreaPositions 5 ⟨2, 2⟩ 1)) = false := by decide
  simp only [List.length_cons, List.length_nil, Nat.zero_add, Nat.mod_one,
    List.getD_cons_zero, List.filter_cons, hfalse, List.filter_nil,
    Bool.false_eq_true, if_false]

/-- The placement loop on the size-5 map never returns from any state in the
small-map invariant: the second team is never successfully placed. -/
theorem placeLoop_small_map_none :
    ∀ fuel cs st, smallMapInv st → placeLoop 5 2 1 fuel cs st = none := by
  intro fuel
  induction fuel with
  | zero =>
    intro cs st hinv
    rfl
  | succ fuel ih =>
    intro cs st hinv
    obtain ⟨h1, h2, h3⟩ := hinv
    have hidx : st.idx < 2 := by omega
    rcases h3 with hpool | hpool
    · simp only [placeLoop, hpool]
      rw [if_pos hidx]
      exact ih cs _ ⟨Nat.zero_le 1, fun h => Nat.noConfusion h,
        Or.inr (show interiorPositions 5 = [⟨2, 2⟩] by decide)⟩
    · have hidx0 : st.idx = 0 := by
        by_cases h : st.idx = 1
        · rw [h2 h] at hpool
          exact List.noConfusion hpool
        · omega
      rw [placeLoop_small_step fuel cs st hpool hidx]
      refine ih cs.tail _ ⟨?_, ?_, ?_⟩
      · show st.idx + 1 ≤ 1
        omega
      · intro h
        rfl
      · exact Or.inl rfl

/-- C9 (code bug): `_place_bases_and_flags` on a size-5 map with two teams
never terminates: for every fuel bound and every sequence of random choices
the loop fails to complete, because the empty-pool fallback resets the team
index to zero, so team 0 is re-placed forever and team 1 never receives a
base. -/
theorem placeBases_small_map_never_completes (fuel : Nat) (cs : List Nat) :
    placeBasesAndFlags 5 2 fuel cs = none := by
  simp only [placeBasesAndFlags, minimumDistance_five_two]
  exact placeLoop_small_map_none fuel cs _
    ⟨Nat.zero_le 1, fun h => Nat.noConfusion h, Or.inr (by decide)⟩

end AsciFight
